import Mathlib

/-!
# Verification of the AI-Employee vault pipeline

Shallow embedding of the repository's core logic:

* `watcher.py`      — frontmatter parsing/rebuilding and the Task Mover
  (`parse_frontmatter`, `rebuild_frontmatter`, `process_file`);
* `instagram_mcp_server.py` — the Approval Gate (`_slug`, `find_approval`,
  `check_approval_status`, `create_approval_request`) and the gated Action
  Executor tools (`send_dm`, `post_to_feed`);
* `base_watcher.py` / `gmail_watcher.py` / `whatsapp_watcher.py` — the
  process-lifetime dedup discipline of `process_item`.

Strings are modelled as `List Char` (Python `str`); directories as
association lists from filename to file content; the filesystem effects of
one operation as explicit state records.  I/O failures (write/move errors)
are modelled as boolean oracles, since the code branches on them.
Python's ASCII-relevant case mapping is modelled with `Char.toUpper` /
`Char.toLower`, which agree with `str.upper` / `str.lower` on ASCII.
-/

/-- Characters at which Python `str.splitlines` breaks a line. -/
def isLineBreak (c : Char) : Bool :=
  c = '\n' || c = '\r' || c = '\x0b' || c = '\x0c' ||
  c = '\x1c' || c = '\x1d' || c = '\x1e' || c = '\x85' ||
  c = ' ' || c = ' '

/-- Characters stripped by Python `str.strip()` (Unicode whitespace). -/
def isPySpace (c : Char) : Bool :=
  c = ' ' || c = '\t' || c = '\n' || c = '\r' || c = '\x0b' || c = '\x0c' ||
  c = '\x1c' || c = '\x1d' || c = '\x1e' || c = '\x1f' ||
  c = '\x85' || c = '\xa0' || c = ' ' ||
  (' ' ≤ c && c ≤ ' ') ||
  c = ' ' || c = ' ' || c = ' ' || c = ' ' || c = '　'

/-- Drop matching characters from the end of a list (right-hand strip). -/
def dropTrail (p : Char → Bool) (l : List Char) : List Char :=
  (l.reverse.dropWhile p).reverse

/-- Python `str.strip()`. -/
def pyStrip (l : List Char) : List Char :=
  dropTrail isPySpace (l.dropWhile isPySpace)

/-- Python `str.upper` (ASCII letters). -/
def pyUpper (l : List Char) : List Char := l.map Char.toUpper

/-- Python `str.lower` (ASCII letters). -/
def pyLower (l : List Char) : List Char := l.map Char.toLower

/-- Python's substring test `pat in s`. -/
def containsSub (pat : List Char) : List Char → Bool
  | [] => pat.isEmpty
  | c :: t => pat.isPrefixOf (c :: t) || containsSub pat t

/-- Python `str.splitlines` (without `keepends`).  `\r\n` is one break. -/
def pyLines : List Char → List (List Char)
  | [] => []
  | '\r' :: '\n' :: cs => [] :: pyLines cs
  | c :: cs =>
    if isLineBreak c then [] :: pyLines cs
    else
      match pyLines cs with
      | [] => [[c]]
      | l :: ls => (c :: l) :: ls

/-- Python dict insertion `d[k] = v`: an existing key keeps its position
and gets the new value, a fresh key is appended at the end. -/
def dictInsert : List (List Char × List Char) → List Char → List Char →
    List (List Char × List Char)
  | [], k, v => [(k, v)]
  | p :: rest, k, v =>
    if p.1 = k then (k, v) :: rest else p :: dictInsert rest k v

/-- Python `d.get(k, "")` (keys in our dicts are unique). -/
def dictGet : List (List Char × List Char) → List Char → List Char
  | [], _ => []
  | p :: rest, k => if p.1 = k then p.2 else dictGet rest k

/-- The four characters `"\n---"`: the closing-delimiter pattern that the
regex `^---\n(.*?)\n---\n?` of `watcher.py` searches for (non-greedily,
hence at its first occurrence). -/
def fmMarker : List Char := ['\n', '-', '-', '-']

/-- Split at the first occurrence of `fmMarker`, returning the text before
it and the text after it; `none` when the marker does not occur. -/
def splitAtMarker : List Char → Option (List Char × List Char)
  | [] => none
  | c :: cs =>
    if fmMarker.isPrefixOf (c :: cs) then some ([], cs.drop 3)
    else
      match splitAtMarker cs with
      | some (b, a) => some (c :: b, a)
      | none => none

/-- One `key: value` line of a frontmatter block: Python
`key, _, val = line.partition(":")` followed by `.strip()` on both parts
(`watcher.py`, `parse_frontmatter`).  Only called on lines containing `:`. -/
def fmLineEntry (line : List Char) : List Char × List Char :=
  (pyStrip (line.takeWhile (fun c => c != ':')),
   pyStrip ((line.dropWhile (fun c => c != ':')).drop 1))

/-- Fold the frontmatter lines into a dict, skipping lines without `:`
(`watcher.py`, `parse_frontmatter` loop). -/
def fmOfLines (lines : List (List Char)) : List (List Char × List Char) :=
  lines.foldl
    (fun d line =>
      if line.contains ':' then dictInsert d (fmLineEntry line).1 (fmLineEntry line).2
      else d)
    []

/-- `watcher.py::parse_frontmatter`.  The regex `^---\n(.*?)\n---\n?`
(DOTALL) requires the content to start with `---\n`, takes the shortest
group up to the next `\n---`, then greedily eats one optional newline.
Returns `(none, content)` when the block is missing. -/
def parse_frontmatter (content : List Char) :
    Option (List (List Char × List Char)) × List Char :=
  match content with
  | '-' :: '-' :: '-' :: '\n' :: rest =>
    (match splitAtMarker rest with
     | none => (none, content)
     | some (g, after) =>
       let body := match after with
         | '\n' :: b => b
         | _ => after
       (some (fmOfLines (pyLines g)), body))
  | _ => (none, content)

/-- `watcher.py::rebuild_frontmatter`:
`"---\n" + "\n".join(f"{k}: {v}") + "\n---\n" + body`. -/
def rebuild_frontmatter (fm : List (List Char × List Char)) (body : List Char) :
    List Char :=
  ("---\n").toList ++
    List.intercalate ['\n'] (fm.map (fun p => p.1 ++ (": ").toList ++ p.2)) ++
    ("\n---\n").toList ++ body

example :
    parse_frontmatter (("---\nstatus: pending\ntype: email\n---\nbody text").toList) =
      (some [(("status").toList, ("pending").toList),
             (("type").toList, ("email").toList)], ("body text").toList) := by
  decide

example : parse_frontmatter (("no frontmatter here").toList) =
    (none, ("no frontmatter here").toList) := by decide

example :
    rebuild_frontmatter [(("status").toList, ("pending").toList)] (("b").toList) =
      ("---\nstatus: pending\n---\nb").toList := by decide

/-! ## Approval Gate and Action Executor (`instagram_mcp_server.py`)

The `Approved` / `Pending_Approval` directories are modelled as association
lists from filename to file content; an absent directory is `none`.  -/

/-- Characters kept by `_slug`'s regex class `[^a-zA-Z0-9_-]`. -/
def isSlugChar (c : Char) : Bool :=
  ('a' ≤ c && c ≤ 'z') || ('A' ≤ c && c ≤ 'Z') ||
  ('0' ≤ c && c ≤ '9') || c = '_' || c = '-'

/-- `instagram_mcp_server.py::_slug`:
`re.sub(r"[^a-zA-Z0-9_-]", "_", text).strip("_")[:60]`. -/
def pySlug (text : List Char) : List Char :=
  (dropTrail (fun c => c == '_')
    ((text.map (fun c => if isSlugChar c then c else '_')).dropWhile
      (fun c => c == '_'))).take 60

/-- The filename prefix `f"APPROVAL_INSTAGRAM_{action_type.upper()}"`. -/
def approvalNamePref (action_type : List Char) : List Char :=
  ("APPROVAL_INSTAGRAM_").toList ++ pyUpper action_type

/-- The `for f in APPROVED_DIR.glob("*.md")` loop body of `find_approval`,
with the two `continue` filters and the `status: approved` content check. -/
def approvalScan (pref subject : List Char) :
    List (List Char × List Char) → Option (List Char × List Char)
  | [] => none
  | f :: rest =>
    if !pref.isPrefixOf (pyUpper f.1) then approvalScan pref subject rest
    else if !subject.isEmpty && !containsSub (pyUpper (pySlug subject)) (pyUpper f.1)
        && pyUpper f.1 != pref ++ (".MD").toList then
      approvalScan pref subject rest
    else if containsSub (("status: approved").toList) (pyLower f.2) then some f
    else approvalScan pref subject rest

/-- `instagram_mcp_server.py::find_approval`.  `approvedDir = none` models a
missing `Approved` directory; the list is the directory in iteration order,
restricted by the glob to names ending in `.md`. -/
def find_approval (approvedDir : Option (List (List Char × List Char)))
    (action_type subject : List Char) : Option (List Char × List Char) :=
  match approvedDir with
  | none => none
  | some files =>
    approvalScan (approvalNamePref action_type) subject
      (files.filter (fun f => (".md").toList.isSuffixOf f.1))

/-- `instagram_mcp_server.py::check_approval_status` (its returned string). -/
def check_approval_status (approvedDir : Option (List (List Char × List Char)))
    (action_type subject : List Char) : List Char :=
  match find_approval approvedDir (pyUpper action_type) subject with
  | some f =>
    ("APPROVED — ").toList ++ f.1 ++ ("\nReady to proceed with the action.").toList
  | none =>
    let pending_name :=
      if !subject.isEmpty then
        ("APPROVAL_INSTAGRAM_").toList ++ pyUpper action_type ++
          ('_' :: pySlug subject) ++ (".md").toList
      else ("APPROVAL_INSTAGRAM_").toList ++ pyUpper action_type ++ (".md").toList
    ("NOT APPROVED — no matching approved file found.\nExpected: AI_Employee/Approved/").toList ++
      pending_name ++
      ("\n          with YAML line:  status: approved\n\nRun create_approval_request(action_type='").toList ++
      action_type ++ ("', subject='").toList ++ subject ++
      ("', details='...') to start the approval flow.").toList

/-- Result of one `create_approval_request` call: the returned string, the
`Pending_Approval` directory afterwards (`write_text` overwrites an existing
file of the same name), and the dashboard lines appended by the call. -/
structure CreateOutcome where
  result : List Char
  pendingDir : List (List Char × List Char)
  dashboard : List (List Char)
  deriving DecidableEq, Repr

/-- The body written by `create_approval_request` (its f-string template);
`ts` stands for `_now_str()`. -/
def approvalContent (actionUpper subject details ts filename humanAction : List Char) :
    List Char :=
  ("---\ntype: approval_request\naction: instagram_").toList ++ pyLower actionUpper ++
  ("\nsubject: \"").toList ++ subject ++
  ("\"\nstatus: pending\ncreated: \"").toList ++ ts ++
  ("\"\nrequires_human_approval: true\n---\n\n# Approval Request — Instagram ").toList ++
  actionUpper ++
  ("\n\n**Action:** ").toList ++ humanAction ++
  ("\n\n**Details:**\n").toList ++ details ++
  ("\n\n---\n\n## How to Approve\n\n1. Review the details above carefully.\n2. If approved, **move this file** to:\n   `AI_Employee/Approved/").toList ++
  filename ++
  ("`\n   (or edit `status: pending` → `status: approved` in this file's YAML)\n3. Then re-run the MCP tool call that triggered this request.\n\n## How to Reject\n\nMove this file to:\n   `AI_Employee/Rejected/").toList ++
  filename ++
  ("`\n\n---\n\n## Rules (from Company Handbook)\n\n- Human is always the final approver for: DMs sent, posts published.\n- Never auto-post or auto-DM without this approval flow.\n- This file was created by Instagram MCP Server — Silver Tier.\n\n---\n*Agent: Panaversity AI Employee — Silver Tier | InstagramMCPServer*\n").toList

/-- `instagram_mcp_server.py::create_approval_request`, acting on the
`Pending_Approval` directory; `ts` stands for `_now_str()`. -/
def create_approval_request (pendingDir : List (List Char × List Char))
    (action_type subject details ts : List Char) : CreateOutcome :=
  let actionUpper := pyStrip (pyUpper action_type)
  if !(actionUpper == ("DM").toList || actionUpper == ("POST").toList) then
    { result := ("ERROR: action_type must be 'DM' or 'POST'.").toList
      pendingDir := pendingDir
      dashboard := [] }
  else
    let slug := pySlug subject
    let filename := ("APPROVAL_INSTAGRAM_").toList ++ actionUpper ++ ('_' :: slug) ++ (".md").toList
    let humanAction :=
      if actionUpper == ("DM").toList then ("Send DM to @").toList ++ subject
      else ("Post to Instagram feed: ").toList ++ subject
    let content := approvalContent actionUpper subject details ts filename humanAction
    { result :=
        ("Approval request created:\n  File   : AI_Employee/Pending_Approval/").toList ++
        filename ++ ("\n  Action : ").toList ++ humanAction ++
        ("\n\nNext steps:\n  1. Review: AI_Employee/Pending_Approval/").toList ++ filename ++
        ("\n  2. Approve: move to AI_Employee/Approved/").toList ++ filename ++
        ("\n     (or change  status: pending  →  status: approved  in the file)\n  3. Re-run the tool call.").toList
      pendingDir := dictInsert pendingDir filename content
      dashboard :=
        [("Approval request created: ").toList ++ filename ++ (" (action=").toList ++
          actionUpper ++ (", subject=").toList ++ subject ++ [')']] }

/-- Observable outcome of one gated tool call: the returned string, whether
the external Instagram side effect was produced, and the dashboard lines
appended by the call. -/
structure ToolOutcome where
  result : List Char
  external : Bool
  dashboard : List (List Char)
  deriving DecidableEq, Repr

/-- The blocked message of `send_dm`. -/
def dmBlockedMsg (to_username message_text : List Char) : List Char :=
  ("ACTION BLOCKED — no approved file found for send_dm → @").toList ++ to_username ++
  (".\n\nTo authorise this action:\n  1. Run: create_approval_request(action_type='DM', subject='").toList ++
  to_username ++ ("', details='Send DM: ").toList ++ message_text.take 50 ++
  ("')\n  2. Review the file in AI_Employee/Pending_Approval/APPROVAL_INSTAGRAM_DM_").toList ++
  pySlug to_username ++
  (".md\n  3. Move it to AI_Employee/Approved/ (or edit status: approved in-place)\n  4. Re-invoke send_dm()").toList

/-- `instagram_mcp_server.py::send_dm`.  `execResult` stands for the string
returned by `_do_send_dm` and `execEffect` for whether that browser attempt
actually produced the external effect (both are environment-dependent). -/
def send_dm (approvedDir : Option (List (List Char × List Char))) (dryRun : Bool)
    (to_username message_text execResult : List Char) (execEffect : Bool) : ToolOutcome :=
  match find_approval approvedDir (("DM").toList) to_username with
  | none =>
    { result := dmBlockedMsg to_username message_text
      external := false
      dashboard := [] }
  | some approval =>
    if dryRun then
      { result :=
          ("[DRY-RUN] Would send DM to @").toList ++ to_username ++
          (":\n  Message : ").toList ++ message_text ++
          ("\n  Approval: ").toList ++ approval.1
        external := false
        dashboard := [("[DRY-RUN] DM to @").toList ++ to_username] }
    else
      { result := execResult
        external := execEffect
        dashboard := [("Sent DM to @").toList ++ to_username] }

/-- The blocked message of `post_to_feed`. -/
def postBlockedMsg : List Char :=
  ("ACTION BLOCKED — no approved file found for post_to_feed.\n\nTo authorise this action:\n  1. Run: create_approval_request(action_type='POST', subject='feed-post', details='<post description>')\n  2. Review the file in AI_Employee/Pending_Approval/APPROVAL_INSTAGRAM_POST.md\n  3. Move it to AI_Employee/Approved/ (or edit status: approved in-place)\n  4. Re-invoke post_to_feed()").toList

/-- `instagram_mcp_server.py::post_to_feed`.  `execResult` / `execEffect`
model the outcome of `_do_post_to_feed`; its dashboard line is only written
when the result does not start with `"ERROR"`. -/
def post_to_feed (approvedDir : Option (List (List Char × List Char))) (dryRun : Bool)
    (caption : List Char) (image_path : Option (List Char))
    (execResult : List Char) (execEffect : Bool) : ToolOutcome :=
  match find_approval approvedDir (("POST").toList) [] with
  | none =>
    { result := postBlockedMsg
      external := false
      dashboard := [] }
  | some approval =>
    if dryRun then
      { result :=
          ("[DRY-RUN] Would post to Instagram feed:\n  Caption : ").toList ++
          caption.take 120 ++ (if caption.length > 120 then ("…").toList else []) ++
          ("\n  Image   : ").toList ++
          (match image_path with
           | some p => p
           | none => ("none (would fail — image required)").toList) ++
          ("\n  Approval: ").toList ++ approval.1
        external := false
        dashboard := [("[DRY-RUN] Posted to Instagram feed").toList] }
    else
      { result := execResult
        external := execEffect
        dashboard :=
          if ("ERROR").toList.isPrefixOf execResult then []
          else [("Posted to Instagram feed").toList] }

example : pySlug (("alice").toList) = ("alice").toList := by decide

example : find_approval (some [(("APPROVAL_INSTAGRAM_DM_alice.md").toList,
    ("---\nstatus: approved\n---").toList)]) (("DM").toList) (("alice").toList) =
    some ((("APPROVAL_INSTAGRAM_DM_alice.md").toList),
      (("---\nstatus: approved\n---").toList)) := by decide

example : find_approval (some [(("APPROVAL_INSTAGRAM_DM_alice.md").toList,
    ("---\nstatus: pending\n---").toList)]) (("DM").toList) (("alice").toList) = none := by
  decide

example : find_approval (some [(("APPROVAL_INSTAGRAM_DM.md").toList,
    ("status: APPROVED").toList)]) (("DM").toList) (("bob").toList) =
    some ((("APPROVAL_INSTAGRAM_DM.md").toList), (("status: APPROVED").toList)) := by
  decide

/-! ## Task Mover (`watcher.py::process_file`)

One task file is modelled by its possible content at the original
`Needs_Action` path and at the `Done` destination path.  The two fallible
I/O steps (`open(...,"w")`/`write` and `shutil.move`) are boolean oracles:
each `False` models the corresponding caught `OSError`. -/

/-- Location state of one task record. -/
structure TaskState where
  needsAction : Option (List Char)
  done : Option (List Char)
  deriving DecidableEq, Repr

/-- `AGENT_SIGNATURE` of `watcher.py`. -/
def agentSignature : List Char :=
  ("Silver Tier Watcher — Panaversity AI Employee Hackathon").toList

/-- The processing note `process_file` appends to the body. -/
def processingNote (ts : List Char) : List Char :=
  ("\n---\n**Processed by ").toList ++ agentSignature ++ ("**  \nTimestamp: ").toList ++
  ts ++ ("  \nAction: status updated → processed, file moved to Done/\n").toList

/-- The updated file content written back by `process_file` for an eligible
record: frontmatter with `status = processed` and `processed_at = ts`, body
with the audit note appended. -/
def moverUpdatedContent (ts : List Char) (fm : List (List Char × List Char))
    (body : List Char) : List Char :=
  rebuild_frontmatter
    (dictInsert (dictInsert fm (("status").toList) (("processed").toList))
      (("processed_at").toList) ts)
    (body ++ processingNote ts)

/-- `watcher.py::process_file` on one record.  Returns the new location
state and the function's boolean result (`True` = processed).  `ts` stands
for `now_str()`; `writeOk` / `moveOk` are the I/O oracles. -/
def process_file (ts : List Char) (writeOk moveOk : Bool) (s : TaskState) :
    TaskState × Bool :=
  match s.needsAction with
  | none => (s, false)
  | some content =>
    match parse_frontmatter content with
    | (none, _) => (s, false)
    | (some fm, body) =>
      if pyLower (dictGet fm (("status").toList)) ≠ ("pending").toList then (s, false)
      else if !writeOk then (s, false)
      else if !moveOk then ({ s with needsAction := some (moverUpdatedContent ts fm body) }, false)
      else ({ needsAction := none, done := some (moverUpdatedContent ts fm body) }, true)

/-- The case-folded `status` frontmatter field of a record's content, as
`process_file` reads it: `none` when the frontmatter block is missing. -/
def statusOf (content : List Char) : Option (List Char) :=
  match parse_frontmatter content with
  | (none, _) => none
  | (some fm, _) => some (pyLower (dictGet fm (("status").toList)))

/-- The location/status agreement invariant of the spec: a record present
in `Needs_Action` carries `status = pending`, one present in `Done` carries
`status = processed`. -/
def locStatusInv (s : TaskState) : Bool :=
  (match s.needsAction with
   | none => true
   | some c => statusOf c == some (("pending").toList)) &&
  (match s.done with
   | none => true
   | some c => statusOf c == some (("processed").toList))

example :
    (process_file (("2025-01-01 00:00:00").toList) true true
      ⟨some (("---\nstatus: pending\n---\nbody").toList), none⟩).2 = true := by decide

example :
    (process_file (("2025-01-01 00:00:00").toList) true true
      ⟨some (("---\nstatus: done\n---\nbody").toList), none⟩) =
    (⟨some (("---\nstatus: done\n---\nbody").toList), none⟩, false) := by decide

/-! ## Watcher Core dedup (`base_watcher.py`, `gmail_watcher.py::process_item`,
`whatsapp_watcher.py::process_item`)

`process_item` of both concrete watchers follows one discipline: skip when
the item's dedup key is already in `self._processed_ids`; otherwise attempt
the task-file write, and add the key to the set only after the write
succeeded (a failed write returns `None` without touching the set).  An
event is a `(dedup key, write-succeeded)` pair; `created` records the keys
of the task files actually written. -/

/-- In-memory state of one Watcher Core process. -/
structure WatcherState where
  processedIds : List (List Char)
  created : List (List Char)
  deriving DecidableEq, Repr

/-- One `process_item` call for an item with dedup key `e.1`, whose file
write succeeds iff `e.2`. -/
def process_item (s : WatcherState) (e : List Char × Bool) : WatcherState :=
  if e.1 ∈ s.processedIds then s
  else if e.2 then { processedIds := e.1 :: s.processedIds, created := e.1 :: s.created }
  else s

/-- Run a sequence of `process_item` calls from a given state. -/
def runWatcher (s : WatcherState) (events : List (List Char × Bool)) : WatcherState :=
  events.foldl process_item s

/-- The state at process start: the dedup cache is empty. -/
def initialWatcherState : WatcherState := ⟨[], []⟩

example :
    (runWatcher initialWatcherState
      [((("42").toList), true), ((("42").toList), true), ((("7").toList), false),
       ((("7").toList), true), ((("7").toList), true)]).created =
    [(("7").toList), (("42").toList)] := by decide

/-! ## Theorems -/

lemma isPrefixOf_append_head {l m : List Char} (x : List Char) (h : l <+: m) :
    l.isPrefixOf (m ++ x) = true := by
  rw [List.isPrefixOf_iff_prefix]
  exact h.trans (m.prefix_append x)

/-- **C10**: `create_approval_request` with an action type that is neither
`DM` nor `POST` after uppercasing and trimming returns the error string,
leaves `Pending_Approval` unchanged, and appends no dashboard entry: the
action-type enum is closed. -/
theorem create_approval_request_closed_enum
    (pendingDir : List (List Char × List Char)) (action_type subject details ts : List Char)
    (hdm : pyStrip (pyUpper action_type) ≠ ("DM").toList)
    (hpost : pyStrip (pyUpper action_type) ≠ ("POST").toList) :
    create_approval_request pendingDir action_type subject details ts =
      ⟨("ERROR: action_type must be 'DM' or 'POST'.").toList, pendingDir, []⟩ := by
  unfold create_approval_request
  have h1 : (pyStrip (pyUpper action_type) == ("DM").toList) = false :=
    beq_eq_false_iff_ne.mpr hdm
  have h2 : (pyStrip (pyUpper action_type) == ("POST").toList) = false :=
    beq_eq_false_iff_ne.mpr hpost
  simp only [h1, h2, Bool.or_false, Bool.not_false, if_true]

theorem create_approval_request_closed_enum_witness :
    create_approval_request [] (("scoped").toList) (("alice").toList) (("d").toList)
      (("t").toList) =
      ⟨("ERROR: action_type must be 'DM' or 'POST'.").toList, [], []⟩ :=
  create_approval_request_closed_enum [] (("scoped").toList) (("alice").toList)
    (("d").toList) (("t").toList) (by decide) (by decide)

/-- **C2**: when the Approval Gate finds no matching approved record, both
gated actions return the structured blocked message (starting with
`ACTION BLOCKED` and describing the approval procedure), perform no
external effect, and append nothing to the dashboard. -/
theorem gated_action_blocked_without_approval
    (approvedDir : Option (List (List Char × List Char))) (dryRun : Bool)
    (to_username message_text execResult : List Char) (execEffect : Bool)
    (caption : List Char) (image_path : Option (List Char))
    (execResult2 : List Char) (execEffect2 : Bool) :
    (find_approval approvedDir (("DM").toList) to_username = none →
      send_dm approvedDir dryRun to_username message_text execResult execEffect =
        ⟨dmBlockedMsg to_username message_text, false, []⟩ ∧
      ("ACTION BLOCKED").toList.isPrefixOf (dmBlockedMsg to_username message_text) = true) ∧
    (find_approval approvedDir (("POST").toList) [] = none →
      post_to_feed approvedDir dryRun caption image_path execResult2 execEffect2 =
        ⟨postBlockedMsg, false, []⟩ ∧
      ("ACTION BLOCKED").toList.isPrefixOf postBlockedMsg = true) := by
  constructor
  · intro h
    refine ⟨?_, ?_⟩
    · unfold send_dm
      rw [h]
    · unfold dmBlockedMsg
      simp only [List.append_assoc]
      refine isPrefixOf_append_head _ ?_
      decide
  · intro h
    refine ⟨?_, ?_⟩
    · unfold post_to_feed
      rw [h]
    · decide

theorem gated_action_blocked_without_approval_witness :
    send_dm none false (("alice").toList) (("hi").toList) [] false =
      ⟨dmBlockedMsg (("alice").toList) (("hi").toList), false, []⟩ :=
  ((gated_action_blocked_without_approval none false (("alice").toList) (("hi").toList)
    [] false [] none [] false).1 rfl).1

/-- **C6**: a gated action invoked in dry-run mode with a matching approval
present performs no external effect, returns the descriptive `[DRY-RUN]`
result, and appends exactly one dashboard entry. -/
theorem dry_run_gated_action
    (approvedDir : Option (List (List Char × List Char)))
    (to_username message_text execResult : List Char) (execEffect : Bool)
    (a : List Char × List Char)
    (caption : List Char) (image_path : Option (List Char))
    (execResult2 : List Char) (execEffect2 : Bool) (b : List Char × List Char) :
    (find_approval approvedDir (("DM").toList) to_username = some a →
      (send_dm approvedDir true to_username message_text execResult execEffect).external
          = false ∧
      (send_dm approvedDir true to_username message_text execResult execEffect).dashboard
          = [("[DRY-RUN] DM to @").toList ++ to_username] ∧
      ("[DRY-RUN]").toList.isPrefixOf
        (send_dm approvedDir true to_username message_text execResult execEffect).result
          = true) ∧
    (find_approval approvedDir (("POST").toList) [] = some b →
      (post_to_feed approvedDir true caption image_path execResult2 execEffect2).external
          = false ∧
      (post_to_feed approvedDir true caption image_path execResult2 execEffect2).dashboard
          = [("[DRY-RUN] Posted to Instagram feed").toList] ∧
      ("[DRY-RUN]").toList.isPrefixOf
        (post_to_feed approvedDir true caption image_path execResult2 execEffect2).result
          = true) := by
  constructor
  · intro h
    unfold send_dm
    rw [h]
    refine ⟨rfl, rfl, ?_⟩
    simp only [List.append_assoc]
    refine isPrefixOf_append_head _ ?_
    decide
  · intro h
    unfold post_to_feed
    rw [h]
    refine ⟨rfl, rfl, ?_⟩
    simp only [List.append_assoc]
    refine isPrefixOf_append_head _ ?_
    decide

theorem dry_run_gated_action_witness :
    (send_dm (some [(("APPROVAL_INSTAGRAM_DM_alice.md").toList, ("status: approved").toList)])
      true (("alice").toList) (("hi").toList) [] true).external = false :=
  ((dry_run_gated_action
      (some [(("APPROVAL_INSTAGRAM_DM_alice.md").toList, ("status: approved").toList)])
      (("alice").toList) (("hi").toList) [] true
      ((("APPROVAL_INSTAGRAM_DM_alice.md").toList), (("status: approved").toList))
      [] none [] true
      ((("APPROVAL_INSTAGRAM_DM_alice.md").toList), (("status: approved").toList))).1
    (by decide)).1

lemma runWatcher_mem (events : List (List Char × Bool)) :
    ∀ (s : WatcherState) (k : List Char),
      k ∈ (runWatcher s events).processedIds ↔
        k ∈ s.processedIds ∨ ∃ e ∈ events, e.1 = k ∧ e.2 = true := by
  induction events with
  | nil => intro s k; simp [runWatcher]
  | cons e rest ih =>
    intro s k
    have hstep : runWatcher s (e :: rest) = runWatcher (process_item s e) rest := rfl
    rw [hstep, ih, List.exists_mem_cons_iff]
    unfold process_item
    by_cases h1 : e.1 ∈ s.processedIds
    · rw [if_pos h1]
      constructor
      · rintro (h | h)
        · exact Or.inl h
        · exact Or.inr (Or.inr h)
      · rintro (h | ⟨hk, _⟩ | h)
        · exact Or.inl h
        · exact Or.inl (hk ▸ h1)
        · exact Or.inr h
    · rw [if_neg h1]
      by_cases h2 : e.2 = true
      · rw [if_pos h2]
        dsimp only
        rw [List.mem_cons]
        constructor
        · rintro ((h | h) | h)
          · exact Or.inr (Or.inl ⟨h.symm, h2⟩)
          · exact Or.inl h
          · exact Or.inr (Or.inr h)
        · rintro (h | ⟨hk, _⟩ | h)
          · exact Or.inl (Or.inr h)
          · exact Or.inl (Or.inl hk.symm)
          · exact Or.inr h
      · rw [if_neg h2]
        constructor
        · rintro (h | h)
          · exact Or.inl h
          · exact Or.inr (Or.inr h)
        · rintro (h | ⟨hk, he⟩ | h)
          · exact Or.inl h
          · exact absurd he h2
          · exact Or.inr h

lemma runWatcher_count (events : List (List Char × Bool)) :
    ∀ (s : WatcherState) (k : List Char),
      s.created.count k = (if k ∈ s.processedIds then 1 else 0) →
      (runWatcher s events).created.count k =
        (if k ∈ (runWatcher s events).processedIds then 1 else 0) := by
  induction events with
  | nil => intro s k h; exact h
  | cons e rest ih =>
    intro s k h
    have hstep : runWatcher s (e :: rest) = runWatcher (process_item s e) rest := rfl
    rw [hstep]
    apply ih
    unfold process_item
    by_cases h1 : e.1 ∈ s.processedIds
    · rw [if_pos h1]; exact h
    · rw [if_neg h1]
      by_cases h2 : e.2 = true
      · rw [if_pos h2]
        dsimp only
        by_cases hk : e.1 = k
        · subst hk
          rw [List.count_cons_self, if_pos (List.mem_cons_self _ _), h, if_neg h1]
        · have hk' : k ≠ e.1 := fun hh => hk hh.symm
          rw [List.count_cons_of_ne hk', h]
          have hiff : k ∈ e.1 :: s.processedIds ↔ k ∈ s.processedIds := by
            rw [List.mem_cons]
            exact ⟨fun hc => hc.elim (fun he => absurd he hk') id, Or.inr⟩
          rw [if_congr hiff rfl rfl]
      · rw [if_neg h2]; exact h

/-- **C5**: within one Watcher Core process lifetime, a task record is
created at most once per dedup key — exactly once as soon as one write for
that key succeeds, hence exactly once when the key is observed two or more
times and writes succeed; and a key enters the in-memory processed set if
and only if a task-file write for it succeeded, so a failed write leaves
the key eligible for retry. -/
theorem watcher_dedup_at_most_once (events : List (List Char × Bool)) (k : List Char) :
    ((runWatcher initialWatcherState events).created.count k =
      if ∃ e ∈ events, e.1 = k ∧ e.2 = true then 1 else 0) ∧
    (k ∈ (runWatcher initialWatcherState events).processedIds ↔
      ∃ e ∈ events, e.1 = k ∧ e.2 = true) ∧
    (2 ≤ (events.filter (fun e => e.1 == k)).length →
      (∀ e ∈ events, e.2 = true) →
      (runWatcher initialWatcherState events).created.count k = 1) := by
  have hmem := runWatcher_mem events initialWatcherState k
  have hmem' : k ∈ (runWatcher initialWatcherState events).processedIds ↔
      ∃ e ∈ events, e.1 = k ∧ e.2 = true := by
    rw [hmem]; simp [initialWatcherState]
  have hcount := runWatcher_count events initialWatcherState k (by simp [initialWatcherState])
  refine ⟨?_, hmem', ?_⟩
  · rw [hcount, if_congr hmem' rfl rfl]
  · intro h2 hall
    rw [hcount, if_congr hmem' rfl rfl]
    have hex : ∃ e ∈ events, e.1 = k ∧ e.2 = true := by
      have hne : (events.filter (fun e => e.1 == k)) ≠ [] := by
        intro hnil
        rw [hnil] at h2
        simp at h2
      obtain ⟨e, he⟩ := List.exists_mem_of_ne_nil _ hne
      have hm := List.mem_filter.mp he
      exact ⟨e, hm.1, by simpa using hm.2, hall e hm.1⟩
    rw [if_pos hex]

theorem watcher_dedup_at_most_once_witness :
    (runWatcher initialWatcherState
      [((("42").toList), true), ((("42").toList), true)]).created.count (("42").toList) = 1 :=
  (watcher_dedup_at_most_once [((("42").toList), true), ((("42").toList), true)]
    (("42").toList)).2.2 (by decide) (by decide)

lemma process_file_no_file (ts : List Char) (w m : Bool) (s : TaskState)
    (hna : s.needsAction = none) : process_file ts w m s = (s, false) := by
  unfold process_file
  rw [hna]

lemma process_file_malformed (ts : List Char) (w m : Bool) (s : TaskState)
    (content b : List Char) (hna : s.needsAction = some content)
    (hp : parse_frontmatter content = (none, b)) : process_file ts w m s = (s, false) := by
  unfold process_file
  rw [hna]
  dsimp only
  rw [hp]

lemma process_file_parsed (ts : List Char) (w m : Bool) (s : TaskState)
    (content : List Char) (fm : List (List Char × List Char)) (body : List Char)
    (hna : s.needsAction = some content)
    (hp : parse_frontmatter content = (some fm, body)) :
    process_file ts w m s =
      if pyLower (dictGet fm (("status").toList)) ≠ ("pending").toList then (s, false)
      else if !w then (s, false)
      else if !m then ({ s with needsAction := some (moverUpdatedContent ts fm body) }, false)
      else ({ needsAction := none, done := some (moverUpdatedContent ts fm body) }, true) := by
  unfold process_file
  rw [hna]
  dsimp only
  rw [hp]

/-- **C3**: the Task Mover transitions a record (result `True`) only if its
parsed `status` field case-insensitively equals `pending`; an eligible
record is transitioned when the two I/O steps succeed; and a record with
missing frontmatter or any other status is left untouched at its original
location — the whole state, including its content, is unchanged. -/
theorem mover_transitions_iff_pending (ts : List Char) (s : TaskState) :
    (∀ w m s', process_file ts w m s = (s', true) →
       ∃ content fm body, s.needsAction = some content ∧
         parse_frontmatter content = (some fm, body) ∧
         pyLower (dictGet fm (("status").toList)) = ("pending").toList) ∧
    (∀ content fm body, s.needsAction = some content →
       parse_frontmatter content = (some fm, body) →
       pyLower (dictGet fm (("status").toList)) = ("pending").toList →
       (process_file ts true true s).2 = true) ∧
    (∀ content, s.needsAction = some content →
       ((parse_frontmatter content).1 = none ∨
         ∃ fm body, parse_frontmatter content = (some fm, body) ∧
           pyLower (dictGet fm (("status").toList)) ≠ ("pending").toList) →
       ∀ w m, process_file ts w m s = (s, false)) := by
  refine ⟨?_, ?_, ?_⟩
  · intro w m s' h
    cases hna : s.needsAction with
    | none =>
      rw [process_file_no_file ts w m s hna] at h
      simp at h
    | some content =>
      cases hp : parse_frontmatter content with
      | mk o b =>
        cases o with
        | none =>
          rw [process_file_malformed ts w m s content b hna hp] at h
          simp at h
        | some fm =>
          by_cases hst : pyLower (dictGet fm (("status").toList)) = ("pending").toList
          · exact ⟨content, fm, b, rfl, hp, hst⟩
          · rw [process_file_parsed ts w m s content fm b hna hp, if_pos hst] at h
            simp at h
  · intro content fm body hna hp hst
    rw [process_file_parsed ts true true s content fm body hna hp]
    rw [if_neg (fun hc => hc hst)]
    rfl
  · intro content hna hcase w m
    rcases hcase with h0 | ⟨fm, body, hp, hne⟩
    · cases hp : parse_frontmatter content with
      | mk o b =>
        rw [hp] at h0
        simp only at h0
        subst h0
        exact process_file_malformed ts w m s content b hna hp
    · rw [process_file_parsed ts w m s content fm body hna hp, if_pos hne]

theorem mover_transitions_iff_pending_witness :
    (process_file (("2025-01-01 00:00:00").toList) true true
       ⟨some (("---\nstatus: pending\n---\nb").toList), none⟩).2 = true :=
  (mover_transitions_iff_pending (("2025-01-01 00:00:00").toList)
      ⟨some (("---\nstatus: pending\n---\nb").toList), none⟩).2.1
    (("---\nstatus: pending\n---\nb").toList)
    [((("status").toList), (("pending").toList))] (("b").toList) rfl (by decide) (by decide)

/-- The filename condition of the Approval Gate: the (upper-cased) name
starts with the action-type prefix and, when a subject is given, contains
the slugified subject or is the prefix-only blanket name. -/
def approvalNameCond (action_type subject name : List Char) : Prop :=
  (approvalNamePref action_type).isPrefixOf (pyUpper name) = true ∧
  (subject ≠ [] →
    containsSub (pyUpper (pySlug subject)) (pyUpper name) = true ∨
    pyUpper name = approvalNamePref action_type ++ (".MD").toList)

/-- The body-marker condition of the Approval Gate: the content contains
the case-insensitive marker `status: approved`. -/
def approvalBodyCond (content : List Char) : Prop :=
  containsSub (("status: approved").toList) (pyLower content) = true

lemma approvalScan_sound (pref subject : List Char) :
    ∀ (files : List (List Char × List Char)) (f : List Char × List Char),
      approvalScan pref subject files = some f →
      f ∈ files ∧ pref.isPrefixOf (pyUpper f.1) = true ∧
        (subject ≠ [] →
          containsSub (pyUpper (pySlug subject)) (pyUpper f.1) = true ∨
          pyUpper f.1 = pref ++ (".MD").toList) ∧
        containsSub (("status: approved").toList) (pyLower f.2) = true := by
  intro files
  induction files with
  | nil => intro f h; simp [approvalScan] at h
  | cons g rest ih =>
    intro f h
    rw [approvalScan] at h
    cases hx : pref.isPrefixOf (pyUpper g.1) with
    | false =>
      rw [hx] at h
      obtain ⟨hmem, hrest⟩ := ih f h
      exact ⟨List.mem_cons_of_mem _ hmem, hrest⟩
    | true =>
      rw [hx] at h
      simp only [Bool.not_true, Bool.false_eq_true, if_false] at h
      cases hc2 : (!subject.isEmpty && !containsSub (pyUpper (pySlug subject)) (pyUpper g.1)
          && (pyUpper g.1 != pref ++ (".MD").toList)) with
      | true =>
        rw [hc2] at h
        simp only [if_true] at h
        obtain ⟨hmem, hrest⟩ := ih f h
        exact ⟨List.mem_cons_of_mem _ hmem, hrest⟩
      | false =>
        rw [hc2] at h
        simp only [Bool.false_eq_true, if_false] at h
        cases hbody : containsSub (("status: approved").toList) (pyLower g.2) with
        | false =>
          rw [hbody] at h
          simp only [Bool.false_eq_true, if_false] at h
          obtain ⟨hmem, hrest⟩ := ih f h
          exact ⟨List.mem_cons_of_mem _ hmem, hrest⟩
        | true =>
          rw [hbody] at h
          simp only [if_true, Option.some.injEq] at h
          subst h
          refine ⟨List.mem_cons_self _ _, hx, ?_, hbody⟩
          intro hsub
          have ha : subject.isEmpty = false := by
            cases hfe : subject with
            | nil => exact absurd hfe hsub
            | cons a t => rfl
          rw [ha] at hc2
          simp only [Bool.not_false, Bool.true_and] at hc2
          rcases Bool.and_eq_false_iff.mp hc2 with hcc | hcc
          · left
            simpa using hcc
          · right
            simpa using hcc

lemma approvalScan_none (pref subject : List Char) :
    ∀ (files : List (List Char × List Char)),
      (∀ f ∈ files,
        ¬(pref.isPrefixOf (pyUpper f.1) = true ∧
          (subject ≠ [] →
            containsSub (pyUpper (pySlug subject)) (pyUpper f.1) = true ∨
            pyUpper f.1 = pref ++ (".MD").toList) ∧
          containsSub (("status: approved").toList) (pyLower f.2) = true)) →
      approvalScan pref subject files = none := by
  intro files
  induction files with
  | nil => intro _; rfl
  | cons g rest ih =>
    intro h
    have hrest := ih (fun f hf => h f (List.mem_cons_of_mem _ hf))
    rw [approvalScan]
    cases hx : pref.isPrefixOf (pyUpper g.1) with
    | false => exact hrest
    | true =>
      cases hc2 : (!subject.isEmpty && !containsSub (pyUpper (pySlug subject)) (pyUpper g.1)
          && (pyUpper g.1 != pref ++ (".MD").toList)) with
      | true => exact hrest
      | false =>
        cases hbody : containsSub (("status: approved").toList) (pyLower g.2) with
        | false => exact hrest
        | true =>
          exfalso
          apply h g (List.mem_cons_self g rest)
          refine ⟨hx, ?_, hbody⟩
          intro hsub
          have ha : subject.isEmpty = false := by
            cases hfe : subject with
            | nil => exact absurd hfe hsub
            | cons a t => rfl
          rw [ha] at hc2
          simp only [Bool.not_false, Bool.true_and] at hc2
          rcases Bool.and_eq_false_iff.mp hc2 with hcc | hcc
          · left
            simpa using hcc
          · right
            simpa using hcc

/-- **C1**: the Approval Gate lookup returns a match only if some `.md`
file of the `Approved` directory satisfies both the filename condition and
the body-marker condition; it returns no match when the directory is
absent, empty, or every file fails at least one of the two conditions —
and `check_approval_status` reports `APPROVED` exactly on a gate hit. -/
theorem find_approval_sound (approvedDir : Option (List (List Char × List Char)))
    (action_type subject : List Char) :
    (∀ f, find_approval approvedDir action_type subject = some f →
       ∃ files, approvedDir = some files ∧ f ∈ files ∧
         approvalNameCond action_type subject f.1 ∧ approvalBodyCond f.2) ∧
    (approvedDir = none → find_approval approvedDir action_type subject = none) ∧
    (∀ files, approvedDir = some files →
       (∀ f ∈ files, ¬(approvalNameCond action_type subject f.1 ∧ approvalBodyCond f.2)) →
       find_approval approvedDir action_type subject = none) ∧
    (∀ f, find_approval approvedDir (pyUpper action_type) subject = some f →
       check_approval_status approvedDir action_type subject =
         ("APPROVED — ").toList ++ f.1 ++ ("\nReady to proceed with the action.").toList) ∧
    (find_approval approvedDir (pyUpper action_type) subject = none →
       ("NOT APPROVED").toList.isPrefixOf
         (check_approval_status approvedDir action_type subject) = true) := by
  refine ⟨?_, ?_, ?_, ?_, ?_⟩
  · intro f h
    cases approvedDir with
    | none => exact absurd h (by simp [find_approval])
    | some files =>
      unfold find_approval at h
      obtain ⟨hmem, h1, h2, h3⟩ := approvalScan_sound _ _ _ f h
      exact ⟨files, rfl, (List.mem_filter.mp hmem).1, ⟨h1, h2⟩, h3⟩
  · intro h
    rw [h]
    rfl
  · intro files hdir hcond
    rw [hdir]
    unfold find_approval
    apply approvalScan_none
    intro f hf
    exact fun hc => hcond f (List.mem_filter.mp hf).1 ⟨⟨hc.1, hc.2.1⟩, hc.2.2⟩
  · intro f h
    unfold check_approval_status
    rw [h]
  · intro h
    unfold check_approval_status
    rw [h]
    simp only [List.append_assoc]
    refine isPrefixOf_append_head _ ?_
    decide

instance (action_type subject name : List Char) :
    Decidable (approvalNameCond action_type subject name) := by
  unfold approvalNameCond
  infer_instance

instance (content : List Char) : Decidable (approvalBodyCond content) := by
  unfold approvalBodyCond
  infer_instance

theorem find_approval_sound_witness :
    find_approval (some [(("APPROVAL_INSTAGRAM_DM_bob.md").toList,
      ("status: pending").toList)]) (("DM").toList) (("bob").toList) = none :=
  (find_approval_sound (some [(("APPROVAL_INSTAGRAM_DM_bob.md").toList,
      ("status: pending").toList)]) (("DM").toList) (("bob").toList)).2.2.1
    [(("APPROVAL_INSTAGRAM_DM_bob.md").toList, ("status: pending").toList)] rfl
    (by decide)

/-! ### Round-trip machinery for the record format -/

lemma dropWhile_idem (p : Char → Bool) (l : List Char) :
    (l.dropWhile p).dropWhile p = l.dropWhile p := by
  induction l with
  | nil => rfl
  | cons c t ih =>
    by_cases hc : p c = true
    · rw [List.dropWhile_cons_of_pos hc]
      exact ih
    · rw [List.dropWhile_cons_of_neg hc]
      exact List.dropWhile_cons_of_neg hc

lemma dropTrail_idem (p : Char → Bool) (l : List Char) :
    dropTrail p (dropTrail p l) = dropTrail p l := by
  unfold dropTrail
  rw [List.reverse_reverse, dropWhile_idem]

lemma pyStrip_space_cons (v : List Char) (hv : pyStrip v = v) : pyStrip (' ' :: v) = v := by
  unfold pyStrip at hv ⊢
  rw [List.dropWhile_cons_of_pos (show isPySpace ' ' = true by decide)]
  exact hv

lemma pyStrip_sublist (l : List Char) : List.Sublist (pyStrip l) l := by
  unfold pyStrip dropTrail
  have h1 : List.Sublist ((l.dropWhile isPySpace).reverse.dropWhile isPySpace)
      (l.dropWhile isPySpace).reverse := (List.dropWhile_suffix _).sublist
  have h2 := h1.reverse
  rw [List.reverse_reverse] at h2
  exact h2.trans (List.dropWhile_suffix _).sublist

lemma dropWhile_eq_self_of_prefix (p : Char → Bool) (x y : List Char)
    (hx : x.dropWhile p = x) (hyx : y <+: x) : y.dropWhile p = y := by
  cases y with
  | nil => rfl
  | cons a y' =>
    obtain ⟨t, ht⟩ := hyx
    by_cases ha : p a = true
    · exfalso
      rw [← ht, List.cons_append, List.dropWhile_cons_of_pos ha] at hx
      have hle : ((y' ++ t).dropWhile p).length ≤ (y' ++ t).length :=
        (List.dropWhile_suffix _).sublist.length_le
      have hcg := congrArg List.length hx
      simp only [List.length_cons] at hcg
      omega
    · exact List.dropWhile_cons_of_neg ha

lemma pyStrip_idem (l : List Char) : pyStrip (pyStrip l) = pyStrip l := by
  have hx := dropWhile_idem isPySpace l
  have hpre : pyStrip l <+: l.dropWhile isPySpace := by
    unfold pyStrip dropTrail
    have h1 : ((l.dropWhile isPySpace).reverse.dropWhile isPySpace) <:+
        (l.dropWhile isPySpace).reverse := List.dropWhile_suffix _
    have h2 := List.reverse_prefix.mpr h1
    rw [List.reverse_reverse] at h2
    exact h2
  have hhead := dropWhile_eq_self_of_prefix isPySpace _ _ hx hpre
  calc pyStrip (pyStrip l)
      = dropTrail isPySpace ((pyStrip l).dropWhile isPySpace) := rfl
    _ = dropTrail isPySpace (pyStrip l) := by rw [hhead]
    _ = pyStrip l := by
        show dropTrail isPySpace (dropTrail isPySpace (l.dropWhile isPySpace)) = _
        rw [dropTrail_idem]
        rfl

lemma takeWhile_append_colon (k r : List Char) (hk : ∀ c ∈ k, (c != ':') = true) :
    (k ++ ':' :: r).takeWhile (fun c => c != ':') = k ∧
    (k ++ ':' :: r).dropWhile (fun c => c != ':') = ':' :: r := by
  induction k with
  | nil =>
    constructor
    · rw [List.nil_append]
      exact List.takeWhile_cons_of_neg (by decide)
    · rw [List.nil_append]
      exact List.dropWhile_cons_of_neg (by decide)
  | cons a t ih =>
    have ha : (a != ':') = true := hk a (List.mem_cons_self a t)
    obtain ⟨ih1, ih2⟩ := ih (fun c hc => hk c (List.mem_cons_of_mem _ hc))
    have hta := @List.takeWhile_cons_of_pos Char (fun c => c != ':') a (t ++ ':' :: r) ha
    have hda := @List.dropWhile_cons_of_pos Char (fun c => c != ':') a (t ++ ':' :: r) ha
    constructor
    · rw [List.cons_append, hta, ih1]
    · rw [List.cons_append, hda]
      exact ih2

lemma fmLineEntry_rebuild (k v : List Char)
    (hk1 : pyStrip k = k) (hk2 : ∀ c ∈ k, (c != ':') = true) (hv : pyStrip v = v) :
    fmLineEntry (k ++ (": ").toList ++ v) = (k, v) := by
  have hsh : k ++ (": ").toList ++ v = k ++ ':' :: ' ' :: v := by
    rw [List.append_assoc]
    rfl
  rw [hsh]
  unfold fmLineEntry
  rw [(takeWhile_append_colon k (' ' :: v) hk2).1, (takeWhile_append_colon k (' ' :: v) hk2).2]
  simp only [List.drop_succ_cons, List.drop_zero]
  rw [hk1, pyStrip_space_cons v hv]

lemma line_contains_colon (k r : List Char) : (k ++ ':' :: r).contains ':' = true :=
  List.elem_eq_true_of_mem (List.mem_append_right _ (List.mem_cons_self ':' r))

set_option maxHeartbeats 1600000 in
lemma pyLines_newline (r : List Char) : pyLines ('\n' :: r) = [] :: pyLines r := by
  rw [pyLines]
  · rw [if_pos (by decide)]
  · intro cs h1 _
    exact absurd h1 (by decide)

lemma pyLines_crlf (cs : List Char) : pyLines ('\r' :: '\n' :: cs) = [] :: pyLines cs := by
  rw [pyLines]

lemma pyLines_cr (t : List Char) (ht : ∀ cs', t ≠ '\n' :: cs') :
    pyLines ('\r' :: t) = [] :: pyLines t := by
  rw [pyLines]
  · rw [if_pos (by decide)]
  · intro cs _ h2
    exact ht cs h2

lemma pyLines_break (c : Char) (t : List Char) (hc : isLineBreak c = true)
    (hcr : c ≠ '\r') : pyLines (c :: t) = [] :: pyLines t := by
  rw [pyLines]
  · rw [if_pos hc]
  · intro cs h1 _
    exact hcr h1

lemma pyLines_cons_nonbreak (c : Char) (t : List Char) (hc : isLineBreak c = false) :
    pyLines (c :: t) =
      (match pyLines t with
       | [] => [[c]]
       | l :: ls => (c :: l) :: ls) := by
  have hcr : ¬ c = '\r' := by
    intro h
    subst h
    simp [isLineBreak] at hc
  rw [pyLines]
  · rw [if_neg (by simp [hc])]
  · intro cs h1 _
    exact hcr h1

lemma pyLines_break_free :
    ∀ (n : Nat) (x : List Char), x.length ≤ n →
      ∀ l ∈ pyLines x, ∀ c ∈ l, isLineBreak c = false := by
  intro n
  induction n with
  | zero =>
    intro x hx
    have : x = [] := List.length_eq_zero.mp (Nat.le_zero.mp hx)
    subst this
    intro l hl
    simp [pyLines] at hl
  | succ n ih =>
    intro x hx
    cases x with
    | nil => intro l hl; simp [pyLines] at hl
    | cons c cs =>
      simp only [List.length_cons, Nat.succ_le_succ_iff] at hx
      by_cases hcr : c = '\r'
      · subst hcr
        cases cs with
        | nil =>
          rw [pyLines_cr [] (fun cs' h => List.noConfusion h)]
          intro l hl
          rcases List.mem_cons.mp hl with h | h
          · subst h; intro c hc; cases hc
          · simp [pyLines] at h
        | cons d cs' =>
          by_cases hd : d = '\n'
          · subst hd
            rw [pyLines_crlf]
            intro l hl
            rcases List.mem_cons.mp hl with h | h
            · subst h; intro c hc; cases hc
            · exact ih cs' (by simp at hx; omega) l h
          · have hne : ∀ cs'', d :: cs' ≠ '\n' :: cs'' := by
              intro cs'' h
              injection h with h1 _
              exact hd h1
            rw [pyLines_cr (d :: cs') hne]
            intro l hl
            rcases List.mem_cons.mp hl with h | h
            · subst h; intro c hc; cases hc
            · exact ih (d :: cs') hx l h
      · by_cases hbr : isLineBreak c = true
        · rw [pyLines_break c cs hbr hcr]
          intro l hl
          rcases List.mem_cons.mp hl with h | h
          · subst h; intro c hc; cases hc
          · exact ih cs hx l h
        · rw [pyLines_cons_nonbreak c cs (by simpa using hbr)]
          cases hpl : pyLines cs with
          | nil =>
            intro l hl
            rcases List.mem_cons.mp hl with h | h
            · subst h
              intro e he
              rcases List.mem_cons.mp he with h' | h'
              · subst h'; simpa using hbr
              · cases h'
            · cases h
          | cons l0 ls =>
            intro l hl
            rcases List.mem_cons.mp hl with h | h
            · subst h
              intro e he
              rcases List.mem_cons.mp he with h' | h'
              · subst h'; simpa using hbr
              · exact ih cs hx l0 (hpl ▸ List.mem_cons_self l0 ls) e h'
            · exact ih cs hx l (hpl ▸ List.mem_cons_of_mem l0 h)

lemma pyLines_append_newline (l r : List Char) (hl : ∀ c ∈ l, isLineBreak c = false) :
    pyLines (l ++ '\n' :: r) = l :: pyLines r := by
  induction l with
  | nil => exact pyLines_newline r
  | cons c t ih =>
    have hc : isLineBreak c = false := hl c (List.mem_cons_self c t)
    rw [List.cons_append,
      pyLines_cons_nonbreak c (t ++ '\n' :: r) hc,
      ih (fun e he => hl e (List.mem_cons_of_mem _ he))]

lemma pyLines_single (l : List Char) (hne : l ≠ [])
    (hl : ∀ c ∈ l, isLineBreak c = false) : pyLines l = [l] := by
  induction l with
  | nil => exact absurd rfl hne
  | cons c t ih =>
    have hc : isLineBreak c = false := hl c (List.mem_cons_self c t)
    rw [pyLines_cons_nonbreak c t hc]
    cases t with
    | nil => rfl
    | cons d t' =>
      rw [ih (List.cons_ne_nil d t') (fun e he => hl e (List.mem_cons_of_mem _ he))]

lemma pyLines_intercalate (lines : List (List Char))
    (h : ∀ l ∈ lines, l ≠ [] ∧ ∀ c ∈ l, isLineBreak c = false) :
    pyLines (List.intercalate ['\n'] lines) = lines := by
  induction lines with
  | nil => simp [List.intercalate, pyLines]
  | cons l ls ih =>
    cases ls with
    | nil =>
      have hsing : List.intercalate ['\n'] [l] = l := by simp [List.intercalate]
      rw [hsing]
      exact pyLines_single l (h l (List.mem_cons_self _ _)).1 (h l (List.mem_cons_self _ _)).2
    | cons l2 rest =>
      have hcc : List.intercalate ['\n'] (l :: l2 :: rest) =
          l ++ '\n' :: List.intercalate ['\n'] (l2 :: rest) := by
        simp [List.intercalate, List.intersperse]
      rw [hcc,
        pyLines_append_newline _ _ (h l (List.mem_cons_self _ _)).2,
        ih (fun m hm => h m (List.mem_cons_of_mem _ hm))]

lemma splitAtMarker_found (l r : List Char) (hl : ∀ c ∈ l, c ≠ '\n')
    (hr : ("---").toList.isPrefixOf r = true) :
    splitAtMarker (l ++ '\n' :: r) = some (l, r.drop 3) := by
  induction l with
  | nil =>
    rw [List.nil_append, splitAtMarker]
    have hcond : fmMarker.isPrefixOf ('\n' :: r) = true := by
      rw [show fmMarker.isPrefixOf ('\n' :: r) = ("---").toList.isPrefixOf r from rfl]
      exact hr
    rw [if_pos hcond]
  | cons c t ih =>
    have hc : c ≠ '\n' := hl c (List.mem_cons_self c t)
    rw [List.cons_append, splitAtMarker]
    have hcond : fmMarker.isPrefixOf (c :: (t ++ '\n' :: r)) = false := by
      rw [show fmMarker.isPrefixOf (c :: (t ++ '\n' :: r)) =
        (('\n' == c) && ("---").toList.isPrefixOf (t ++ '\n' :: r)) from rfl]
      rw [beq_eq_false_iff_ne.mpr (Ne.symm hc), Bool.false_and]
    rw [hcond]
    rw [if_neg (by decide : ¬ (false = true))]
    rw [ih (fun e he => hl e (List.mem_cons_of_mem _ he))]

lemma splitAtMarker_skip (l r : List Char) (hl : ∀ c ∈ l, c ≠ '\n')
    (hr : ("---").toList.isPrefixOf r = false) :
    splitAtMarker (l ++ '\n' :: r) =
      (splitAtMarker r).map (fun p => (l ++ '\n' :: p.1, p.2)) := by
  induction l with
  | nil =>
    rw [List.nil_append, splitAtMarker]
    have hcond : fmMarker.isPrefixOf ('\n' :: r) = false := by
      rw [show fmMarker.isPrefixOf ('\n' :: r) = ("---").toList.isPrefixOf r from rfl]
      exact hr
    rw [hcond]
    rw [if_neg (by decide : ¬ (false = true))]
    cases hs : splitAtMarker r with
    | none => rfl
    | some p => cases p with | mk b a => rfl
  | cons c t ih =>
    have hc : c ≠ '\n' := hl c (List.mem_cons_self c t)
    rw [List.cons_append, splitAtMarker]
    have hcond : fmMarker.isPrefixOf (c :: (t ++ '\n' :: r)) = false := by
      rw [show fmMarker.isPrefixOf (c :: (t ++ '\n' :: r)) =
        (('\n' == c) && ("---").toList.isPrefixOf (t ++ '\n' :: r)) from rfl]
      rw [beq_eq_false_iff_ne.mpr (Ne.symm hc), Bool.false_and]
    rw [hcond]
    rw [if_neg (by decide : ¬ (false = true))]
    rw [ih (fun e he => hl e (List.mem_cons_of_mem _ he))]
    cases hs : splitAtMarker r with
    | none => rfl
    | some p => cases p with | mk b a => rfl

lemma triple_dash_toList : ("---").toList = ['-', '-', '-'] := by decide

lemma dashes_not_prefix_append (hd w : List Char)
    (hhd : ("---").toList.isPrefixOf hd = false) :
    ("---").toList.isPrefixOf (hd ++ '\n' :: w) = false := by
  match hd with
  | [] => rfl
  | [a] =>
    rw [show ("---").toList.isPrefixOf ([a] ++ '\n' :: w) = (('-' == a) && false) from rfl]
    rw [Bool.and_false]
  | [a, b] =>
    rw [show ("---").toList.isPrefixOf ([a, b] ++ '\n' :: w) =
      (('-' == a) && (('-' == b) && false)) from rfl]
    rw [Bool.and_false, Bool.and_false]
  | a :: b :: c :: rest =>
    rw [triple_dash_toList] at hhd ⊢
    have e1 : List.isPrefixOf ['-', '-', '-'] (a :: b :: c :: rest ++ '\n' :: w) =
        List.isPrefixOf ['-', '-', '-'] (a :: b :: c :: rest) := by
      simp [List.isPrefixOf]
    rw [e1]
    exact hhd

lemma splitAtMarker_intercalate (lines : List (List Char)) (t : List Char)
    (hall : ∀ l ∈ lines, ∀ c ∈ l, c ≠ '\n')
    (htail : ∀ l ∈ lines.tail, ("---").toList.isPrefixOf l = false) :
    splitAtMarker (List.intercalate ['\n'] lines ++ '\n' :: (("---").toList ++ t)) =
      some (List.intercalate ['\n'] lines, t) := by
  induction lines with
  | nil =>
    rw [show List.intercalate ['\n'] ([] : List (List Char)) = [] by simp [List.intercalate]]
    have hstep := splitAtMarker_found [] (("---").toList ++ t)
      (fun c h => absurd h (List.not_mem_nil c))
      (isPrefixOf_append_head t (List.prefix_refl _))
    rw [List.nil_append] at hstep ⊢
    rw [hstep, triple_dash_toList]
    rfl
  | cons l ls ih =>
    cases ls with
    | nil =>
      rw [show List.intercalate ['\n'] [l] = l by simp [List.intercalate]]
      rw [splitAtMarker_found l _ (hall l (List.mem_cons_self _ _))
        (isPrefixOf_append_head t (List.prefix_refl _)), triple_dash_toList]
      rfl
    | cons l2 rest =>
      have hcc : List.intercalate ['\n'] (l :: l2 :: rest) =
          l ++ '\n' :: List.intercalate ['\n'] (l2 :: rest) := by
        simp [List.intercalate, List.intersperse]
      rw [hcc, List.append_assoc, List.cons_append]
      have hshape : ∃ w, List.intercalate ['\n'] (l2 :: rest) ++ '\n' :: (("---").toList ++ t) =
          l2 ++ '\n' :: w := by
        cases rest with
        | nil =>
          exact ⟨("---").toList ++ t,
            by rw [show List.intercalate ['\n'] [l2] = l2 by simp [List.intercalate]]⟩
        | cons l3 rest' =>
          refine ⟨List.intercalate ['\n'] (l3 :: rest') ++ '\n' :: (("---").toList ++ t), ?_⟩
          rw [show List.intercalate ['\n'] (l2 :: l3 :: rest') =
            l2 ++ '\n' :: List.intercalate ['\n'] (l3 :: rest') by
              simp [List.intercalate, List.intersperse]]
          rw [List.append_assoc, List.cons_append]
      obtain ⟨w, hw⟩ := hshape
      have hr : ("---").toList.isPrefixOf
          (List.intercalate ['\n'] (l2 :: rest) ++ '\n' :: (("---").toList ++ t)) = false := by
        rw [hw]
        exact dashes_not_prefix_append l2 w (htail l2 (List.mem_cons_self _ _))
      rw [splitAtMarker_skip l _ (hall l (List.mem_cons_self _ _)) hr]
      rw [ih (fun m hm => hall m (List.mem_cons_of_mem _ hm))
        (fun m hm => htail m (List.mem_cons_of_mem _ hm))]
      rfl

lemma dictInsert_of_not_mem (d : List (List Char × List Char)) (k v : List Char)
    (h : k ∉ d.map Prod.fst) : dictInsert d k v = d ++ [(k, v)] := by
  induction d with
  | nil => rfl
  | cons p rest ih =>
    rw [dictInsert]
    rw [if_neg (fun he => h (by rw [List.map_cons]; exact List.mem_cons.mpr (Or.inl he.symm)))]
    rw [ih (fun hm => h (by rw [List.map_cons]; exact List.mem_cons_of_mem _ hm))]
    rfl

lemma foldl_fm_entries (fm : List (List Char × List Char)) :
    ∀ (d : List (List Char × List Char)),
      (∀ p ∈ fm, pyStrip p.1 = p.1 ∧ (∀ c ∈ p.1, (c != ':') = true) ∧ pyStrip p.2 = p.2) →
      (fm.map Prod.fst).Nodup →
      (∀ p ∈ fm, p.1 ∉ d.map Prod.fst) →
      List.foldl
        (fun d line =>
          if line.contains ':' then dictInsert d (fmLineEntry line).1 (fmLineEntry line).2
          else d)
        d (fm.map (fun p => p.1 ++ (": ").toList ++ p.2)) = d ++ fm := by
  induction fm with
  | nil => intro d _ _ _; simp
  | cons p t ih =>
    intro d hwf hnd hfresh
    rw [List.map_cons, List.foldl_cons]
    have hp := hwf p (List.mem_cons_self _ _)
    have hsh : p.1 ++ (": ").toList ++ p.2 = p.1 ++ ':' :: ' ' :: p.2 := by
      rw [List.append_assoc]
      rfl
    have hline : (p.1 ++ (": ").toList ++ p.2).contains ':' = true := by
      rw [hsh]
      exact line_contains_colon _ _
    have hentry : fmLineEntry (p.1 ++ (": ").toList ++ p.2) = (p.1, p.2) :=
      fmLineEntry_rebuild p.1 p.2 hp.1 hp.2.1 hp.2.2
    simp only [hline, if_true, hentry]
    rw [dictInsert_of_not_mem d p.1 p.2 (hfresh p (List.mem_cons_self _ _))]
    have hnd' : (t.map Prod.fst).Nodup := (List.nodup_cons.mp (by simpa using hnd)).2
    have hhead : p.1 ∉ t.map Prod.fst := (List.nodup_cons.mp (by simpa using hnd)).1
    rw [ih (d ++ [(p.1, p.2)]) (fun q hq => hwf q (List.mem_cons_of_mem _ hq)) hnd'
      (fun q hq => by
        rw [List.map_append]
        intro hmem
        rcases List.mem_append.mp hmem with hm | hm
        · exact hfresh q (List.mem_cons_of_mem _ hq) hm
        · have : q.1 = p.1 := by simpa using hm
          exact hhead (this ▸ List.mem_map_of_mem Prod.fst hq))]
    rw [List.append_assoc]
    rfl

lemma dashes_not_prefix_colon (hd w : List Char)
    (hhd : ("---").toList.isPrefixOf hd = false) :
    ("---").toList.isPrefixOf (hd ++ ':' :: w) = false := by
  match hd with
  | [] => rfl
  | [a] =>
    rw [show ("---").toList.isPrefixOf ([a] ++ ':' :: w) = (('-' == a) && false) from rfl]
    rw [Bool.and_false]
  | [a, b] =>
    rw [show ("---").toList.isPrefixOf ([a, b] ++ ':' :: w) =
      (('-' == a) && (('-' == b) && false)) from rfl]
    rw [Bool.and_false, Bool.and_false]
  | a :: b :: c :: rest =>
    rw [triple_dash_toList] at hhd ⊢
    have e1 : List.isPrefixOf ['-', '-', '-'] (a :: b :: c :: rest ++ ':' :: w) =
        List.isPrefixOf ['-', '-', '-'] (a :: b :: c :: rest) := by
      simp [List.isPrefixOf]
    rw [e1]
    exact hhd

set_option maxHeartbeats 1600000 in
lemma parse_frontmatter_dash (rest : List Char) :
    parse_frontmatter ('-' :: '-' :: '-' :: '\n' :: rest) =
      (match splitAtMarker rest with
       | none => (none, '-' :: '-' :: '-' :: '\n' :: rest)
       | some (g, after) =>
         (some (fmOfLines (pyLines g)),
          match after with
          | '\n' :: b => b
          | _ => after)) := by
  rw [parse_frontmatter]

/-- Well-formedness of one frontmatter entry: both parts stripped, the key
free of colons, both parts free of line breaks.  Every entry produced by
`parse_frontmatter` satisfies this. -/
def fmEntryWF (p : List Char × List Char) : Prop :=
  pyStrip p.1 = p.1 ∧ pyStrip p.2 = p.2 ∧
  (∀ c ∈ p.1, (c != ':') = true) ∧
  (∀ c ∈ p.1, isLineBreak c = false) ∧
  (∀ c ∈ p.2, isLineBreak c = false)

lemma parse_rebuild_roundtrip (fm : List (List Char × List Char)) (body : List Char)
    (hwf : ∀ p ∈ fm, fmEntryWF p)
    (hnd : (fm.map Prod.fst).Nodup)
    (htail : ∀ p ∈ fm.tail, ("---").toList.isPrefixOf p.1 = false) :
    parse_frontmatter (rebuild_frontmatter fm body) = (some fm, body) := by
  set lines := fm.map (fun p => p.1 ++ (": ").toList ++ p.2) with hlines
  have hline_shape : ∀ p : List Char × List Char,
      p.1 ++ (": ").toList ++ p.2 = p.1 ++ ':' :: ' ' :: p.2 := by
    intro p
    rw [List.append_assoc]
    rfl
  have hlines_bf : ∀ l ∈ lines, ∀ c ∈ l, isLineBreak c = false := by
    intro l hl c hc
    obtain ⟨p, hp, hpl⟩ := List.mem_map.mp hl
    obtain ⟨_, _, _, hk, hv⟩ := hwf p hp
    rw [← hpl, hline_shape p] at hc
    rcases List.mem_append.mp hc with h | h
    · exact hk c h
    · rcases List.mem_cons.mp h with h' | h'
      · subst h'; decide
      · rcases List.mem_cons.mp h' with h'' | h''
        · subst h''; decide
        · exact hv c h''
  have hlines_nl : ∀ l ∈ lines, ∀ c ∈ l, c ≠ '\n' := by
    intro l hl c hc he
    subst he
    have := hlines_bf l hl '\n' hc
    simp [isLineBreak] at this
  have hlines_ne : ∀ l ∈ lines, l ≠ [] := by
    intro l hl
    obtain ⟨p, _, hpl⟩ := List.mem_map.mp hl
    rw [← hpl, hline_shape p]
    intro hcontra
    have := congrArg List.length hcontra
    simp at this
  have hlines_tail : ∀ l ∈ lines.tail, ("---").toList.isPrefixOf l = false := by
    intro l hl
    rw [hlines, ← List.map_tail] at hl
    obtain ⟨p, hp, hpl⟩ := List.mem_map.mp hl
    rw [← hpl, hline_shape p]
    exact dashes_not_prefix_colon p.1 (' ' :: p.2) (htail p hp)
  have hre : rebuild_frontmatter fm body =
      '-' :: '-' :: '-' :: '\n' ::
        (List.intercalate ['\n'] lines ++ '\n' :: (("---").toList ++ '\n' :: body)) := by
    unfold rebuild_frontmatter
    rw [show ("---\n").toList = ['-', '-', '-', '\n'] by decide]
    rw [show ("\n---\n").toList = ['\n', '-', '-', '-', '\n'] by decide]
    rw [triple_dash_toList]
    simp only [List.append_assoc, List.cons_append, List.nil_append]
    rw [show (fun p : List Char × List Char => p.1 ++ ((": ").toList ++ p.2)) =
      (fun p : List Char × List Char => p.1 ++ (": ").toList ++ p.2) from
      funext (fun p => (List.append_assoc p.1 ((": ").toList) p.2).symm)]
  rw [hre, parse_frontmatter_dash,
    splitAtMarker_intercalate lines ('\n' :: body) hlines_nl hlines_tail]
  have hpl : pyLines (List.intercalate ['\n'] lines) = lines :=
    pyLines_intercalate lines (fun l hl => ⟨hlines_ne l hl, hlines_bf l hl⟩)
  simp only [hpl]
  have hfold : fmOfLines lines = fm := by
    rw [hlines]
    show List.foldl _ [] (fm.map (fun p => p.1 ++ (": ").toList ++ p.2)) = fm
    rw [foldl_fm_entries fm []
      (fun p hp => ⟨(hwf p hp).1, (hwf p hp).2.2.1, (hwf p hp).2.1⟩) hnd
      (fun p _ => by simp)]
    rfl
  rw [hfold]

instance (p : List Char × List Char) : Decidable (fmEntryWF p) := by
  unfold fmEntryWF
  infer_instance

lemma mem_dictInsert (d : List (List Char × List Char)) (k v : List Char)
    (q : List Char × List Char) (h : q ∈ dictInsert d k v) : q ∈ d ∨ q = (k, v) := by
  induction d with
  | nil =>
    rw [dictInsert] at h
    rcases List.mem_cons.mp h with h' | h'
    · exact Or.inr h'
    · cases h'
  | cons p rest ih =>
    rw [dictInsert] at h
    by_cases hp : p.1 = k
    · rw [if_pos hp] at h
      rcases List.mem_cons.mp h with h' | h'
      · exact Or.inr h'
      · exact Or.inl (List.mem_cons_of_mem _ h')
    · rw [if_neg hp] at h
      rcases List.mem_cons.mp h with h' | h'
      · exact Or.inl (h' ▸ List.mem_cons_self p rest)
      · rcases ih h' with h'' | h''
        · exact Or.inl (List.mem_cons_of_mem _ h'')
        · exact Or.inr h''

lemma mem_keys_dictInsert (d : List (List Char × List Char)) (k v x : List Char)
    (h : x ∈ (dictInsert d k v).map Prod.fst) : x = k ∨ x ∈ d.map Prod.fst := by
  rcases List.mem_map.mp h with ⟨q, hq, hqx⟩
  rcases mem_dictInsert d k v q hq with h' | h'
  · exact Or.inr (hqx ▸ List.mem_map_of_mem Prod.fst h')
  · subst h'
    exact Or.inl hqx.symm

lemma dictInsert_nodup (d : List (List Char × List Char)) (k v : List Char)
    (h : (d.map Prod.fst).Nodup) : ((dictInsert d k v).map Prod.fst).Nodup := by
  induction d with
  | nil => simp [dictInsert]
  | cons p rest ih =>
    rw [List.map_cons] at h
    obtain ⟨hni, hnd⟩ := List.nodup_cons.mp h
    rw [dictInsert]
    by_cases hp : p.1 = k
    · rw [if_pos hp, List.map_cons]
      exact List.nodup_cons.mpr ⟨hp ▸ hni, hnd⟩
    · rw [if_neg hp, List.map_cons]
      refine List.nodup_cons.mpr ⟨?_, ih hnd⟩
      intro hmem
      rcases mem_keys_dictInsert rest k v p.1 hmem with h' | h'
      · exact hp h'
      · exact hni h'

lemma dictGet_not_mem (d : List (List Char × List Char)) (k : List Char)
    (h : k ∉ d.map Prod.fst) : dictGet d k = [] := by
  induction d with
  | nil => rfl
  | cons p rest ih =>
    rw [dictGet]
    rw [if_neg (fun he => h (by rw [List.map_cons]; exact List.mem_cons.mpr (Or.inl he.symm)))]
    exact ih (fun hm => h (by rw [List.map_cons]; exact List.mem_cons_of_mem _ hm))

lemma dictGet_insert_self (d : List (List Char × List Char)) (k v : List Char) :
    dictGet (dictInsert d k v) k = v := by
  induction d with
  | nil =>
    rw [dictInsert, dictGet, if_pos rfl]
  | cons p rest ih =>
    rw [dictInsert]
    by_cases hp : p.1 = k
    · rw [if_pos hp, dictGet, if_pos rfl]
    · rw [if_neg hp, dictGet, if_neg hp]
      exact ih

lemma dictGet_insert_ne (d : List (List Char × List Char)) (k k' v : List Char)
    (h : k' ≠ k) : dictGet (dictInsert d k' v) k = dictGet d k := by
  induction d with
  | nil => simp [dictInsert, dictGet, h]
  | cons p rest ih =>
    rw [dictInsert]
    by_cases hp : p.1 = k'
    · rw [if_pos hp]
      have hpk : p.1 ≠ k := fun he => h (hp ▸ he)
      simp only [dictGet]
      rw [if_neg h, if_neg hpk]
    · rw [if_neg hp]
      simp only [dictGet]
      by_cases hpk : p.1 = k
      · rw [if_pos hpk, if_pos hpk]
      · rw [if_neg hpk, if_neg hpk]
        exact ih

lemma keys_dictInsert_of_mem (d : List (List Char × List Char)) (k v : List Char)
    (h : k ∈ d.map Prod.fst) : (dictInsert d k v).map Prod.fst = d.map Prod.fst := by
  induction d with
  | nil => cases h
  | cons p rest ih =>
    rw [dictInsert]
    by_cases hp : p.1 = k
    · rw [if_pos hp, List.map_cons, List.map_cons, hp]
    · rw [if_neg hp, List.map_cons, List.map_cons]
      rw [List.map_cons] at h
      rcases List.mem_cons.mp h with h' | h'
      · exact absurd h'.symm hp
      · rw [ih h']

lemma keys_dictInsert_of_not_mem (d : List (List Char × List Char)) (k v : List Char)
    (h : k ∉ d.map Prod.fst) : (dictInsert d k v).map Prod.fst = d.map Prod.fst ++ [k] := by
  rw [dictInsert_of_not_mem d k v h, List.map_append]
  rfl

lemma fmLineEntry_wf (line : List Char) (hbf : ∀ c ∈ line, isLineBreak c = false) :
    fmEntryWF (fmLineEntry line) := by
  unfold fmEntryWF fmLineEntry
  dsimp only
  refine ⟨pyStrip_idem _, pyStrip_idem _, ?_, ?_, ?_⟩
  · intro c hc
    have h0 : c ∈ line.takeWhile (fun c => c != ':') := (pyStrip_sublist _).mem hc
    exact @List.mem_takeWhile_imp Char (fun c => c != ':') line c h0
  · intro c hc
    have h0 : c ∈ line.takeWhile (fun c => c != ':') := (pyStrip_sublist _).mem hc
    exact hbf c ((List.takeWhile_prefix _).sublist.mem h0)
  · intro c hc
    have h1 : c ∈ (line.dropWhile (fun c => c != ':')).drop 1 := (pyStrip_sublist _).mem hc
    have h2 : c ∈ line.dropWhile (fun c => c != ':') :=
      (List.drop_sublist 1 _).mem h1
    exact hbf c ((List.dropWhile_suffix _).sublist.mem h2)

lemma foldl_fm_wf (lines : List (List Char)) :
    ∀ (d : List (List Char × List Char)),
      (∀ l ∈ lines, ∀ c ∈ l, isLineBreak c = false) →
      (∀ p ∈ d, fmEntryWF p) → (d.map Prod.fst).Nodup →
      (∀ p ∈ List.foldl
        (fun d line =>
          if line.contains ':' then dictInsert d (fmLineEntry line).1 (fmLineEntry line).2
          else d)
        d lines, fmEntryWF p) ∧
      ((List.foldl
        (fun d line =>
          if line.contains ':' then dictInsert d (fmLineEntry line).1 (fmLineEntry line).2
          else d)
        d lines).map Prod.fst).Nodup := by
  induction lines with
  | nil => intro d _ hd hnd; exact ⟨hd, hnd⟩
  | cons l rest ih =>
    intro d hbf hd hnd
    rw [List.foldl_cons]
    by_cases hc : l.contains ':' = true
    · simp only [hc, if_true]
      refine ih _ (fun m hm => hbf m (List.mem_cons_of_mem _ hm)) ?_ ?_
      · intro q hq
        rcases mem_dictInsert _ _ _ q hq with h' | h'
        · exact hd q h'
        · subst h'
          have := fmLineEntry_wf l (hbf l (List.mem_cons_self _ _))
          exact this
      · exact dictInsert_nodup _ _ _ hnd
    · simp only [hc, if_false, Bool.false_eq_true]
      exact ih _ (fun m hm => hbf m (List.mem_cons_of_mem _ hm)) hd hnd

lemma parse_frontmatter_wf (content : List Char) (fm : List (List Char × List Char))
    (body : List Char) (h : parse_frontmatter content = (some fm, body)) :
    (∀ p ∈ fm, fmEntryWF p) ∧ (fm.map Prod.fst).Nodup := by
  rw [parse_frontmatter.eq_def] at h
  split at h
  · rename_i rest
    split at h
    · simp at h
    · injection h with h1 h2
      injection h1 with h3
      subst h3
      exact foldl_fm_wf _ [] (pyLines_break_free _ _ (Nat.le_refl _))
        (fun p hp => absurd hp (List.not_mem_nil p)) List.nodup_nil
  · simp at h

lemma moverUpdated_parse (ts : List Char) (fm : List (List Char × List Char))
    (body : List Char)
    (hwf : ∀ p ∈ fm, fmEntryWF p) (hnd : (fm.map Prod.fst).Nodup)
    (htail : ∀ p ∈ fm.tail, ("---").toList.isPrefixOf p.1 = false)
    (hts1 : pyStrip ts = ts) (hts2 : ∀ c ∈ ts, isLineBreak c = false)
    (hstat : ("status").toList ∈ fm.map Prod.fst) :
    parse_frontmatter (moverUpdatedContent ts fm body) =
      (some (dictInsert (dictInsert fm (("status").toList) (("processed").toList))
        (("processed_at").toList) ts), body ++ processingNote ts) ∧
    dictGet (dictInsert (dictInsert fm (("status").toList) (("processed").toList))
        (("processed_at").toList) ts) (("status").toList) = ("processed").toList ∧
    dictGet (dictInsert (dictInsert fm (("status").toList) (("processed").toList))
        (("processed_at").toList) ts) (("processed_at").toList) = ts := by
  set fm1 := dictInsert fm (("status").toList) (("processed").toList) with hfm1
  set fm2 := dictInsert fm1 (("processed_at").toList) ts with hfm2
  have hwf1 : ∀ p ∈ fm1, fmEntryWF p := by
    intro p hp
    rcases mem_dictInsert _ _ _ p hp with h' | h'
    · exact hwf p h'
    · subst h'
      refine ⟨by decide, by decide, by decide, by decide, by decide⟩
  have hwf2 : ∀ p ∈ fm2, fmEntryWF p := by
    intro p hp
    rcases mem_dictInsert _ _ _ p hp with h' | h'
    · exact hwf1 p h'
    · subst h'
      refine ⟨?_, hts1, ?_, ?_, hts2⟩
      · show pyStrip (("processed_at").toList) = ("processed_at").toList
        decide
      · show ∀ c ∈ ("processed_at").toList, (c != ':') = true
        decide
      · show ∀ c ∈ ("processed_at").toList, isLineBreak c = false
        decide
  have hnd1 : (fm1.map Prod.fst).Nodup := dictInsert_nodup _ _ _ hnd
  have hnd2 : (fm2.map Prod.fst).Nodup := dictInsert_nodup _ _ _ hnd1
  have hkeys1 : fm1.map Prod.fst = fm.map Prod.fst := keys_dictInsert_of_mem _ _ _ hstat
  have htailK : ∀ x ∈ (fm.map Prod.fst).tail, ("---").toList.isPrefixOf x = false := by
    intro x hx
    rw [← List.map_tail] at hx
    rcases List.mem_map.mp hx with ⟨p, hp, hpx⟩
    exact hpx ▸ htail p hp
  have htail2 : ∀ p ∈ fm2.tail, ("---").toList.isPrefixOf p.1 = false := by
    have htailK2 : ∀ x ∈ (fm2.map Prod.fst).tail, ("---").toList.isPrefixOf x = false := by
      by_cases hpa : ("processed_at").toList ∈ fm1.map Prod.fst
      · have : fm2.map Prod.fst = fm.map Prod.fst := by
          rw [hfm2, keys_dictInsert_of_mem _ _ _ hpa, hkeys1]
        rw [this]
        exact htailK
      · have hk2 : fm2.map Prod.fst = fm.map Prod.fst ++ [("processed_at").toList] := by
          rw [hfm2, keys_dictInsert_of_not_mem _ _ _ hpa, hkeys1]
        rw [hk2]
        cases hfmk : fm.map Prod.fst with
        | nil => rw [hfmk] at hstat; cases hstat
        | cons a t =>
          intro x hx
          rw [List.cons_append] at hx
          simp only [List.tail_cons] at hx
          rcases List.mem_append.mp hx with h' | h'
          · exact htailK x (by rw [hfmk]; exact h')
          · have : x = ("processed_at").toList := by simpa using h'
            subst this
            decide
    intro p hp
    have : p.1 ∈ (fm2.map Prod.fst).tail := by
      rw [← List.map_tail]
      exact List.mem_map_of_mem Prod.fst hp
    exact htailK2 p.1 this
  refine ⟨parse_rebuild_roundtrip fm2 (body ++ processingNote ts) hwf2 hnd2 htail2, ?_, ?_⟩
  · rw [hfm2, dictGet_insert_ne _ _ _ _ (by decide), hfm1, dictGet_insert_self]
  · rw [hfm2, dictGet_insert_self]

/-- **C8** (counterexample to the claim as stated): the mapping
`{"a": "b", "---c": "d"}` has colon-free, whitespace-trimmed keys and
values, yet rebuilding and re-parsing loses the `---c` field, because the
rebuilt line `---c: d` starts with `---` and is taken for the closing
frontmatter delimiter. -/
theorem rebuild_parse_not_roundtrip_cex :
    (∀ p ∈ [((("a").toList), (("b").toList)), ((("---c").toList), (("d").toList))],
       pyStrip p.1 = p.1 ∧ pyStrip p.2 = p.2 ∧ ∀ c ∈ p.1, (c != ':') = true) ∧
    (([((("a").toList), (("b").toList)),
       ((("---c").toList), (("d").toList))].map Prod.fst).Nodup) ∧
    parse_frontmatter (rebuild_frontmatter
        [((("a").toList), (("b").toList)), ((("---c").toList), (("d").toList))] []) ≠
      (some [((("a").toList), (("b").toList)), ((("---c").toList), (("d").toList))], []) := by
  refine ⟨by decide, by decide, by decide⟩

/-- **C8** (amended): rebuilding a frontmatter mapping whose keys are
colon-free and whose keys and values are whitespace-trimmed — and,
additionally, contain no line-break characters and no key other than the
first starts with `---` — and then re-parsing recovers every header field
with its value unchanged, and recovers the body. -/
theorem rebuild_parse_recovers_fields (fm : List (List Char × List Char)) (body : List Char)
    (hwf : ∀ p ∈ fm, fmEntryWF p)
    (hnd : (fm.map Prod.fst).Nodup)
    (htail : ∀ p ∈ fm.tail, ("---").toList.isPrefixOf p.1 = false) :
    parse_frontmatter (rebuild_frontmatter fm body) = (some fm, body) :=
  parse_rebuild_roundtrip fm body hwf hnd htail

theorem rebuild_parse_recovers_fields_witness :
    parse_frontmatter (rebuild_frontmatter
        [((("status").toList), (("pending").toList)),
         ((("from").toList), (("x@y.z").toList))] (("the body").toList)) =
      (some [((("status").toList), (("pending").toList)),
             ((("from").toList), (("x@y.z").toList))], ("the body").toList) :=
  rebuild_parse_recovers_fields
    [((("status").toList), (("pending").toList)), ((("from").toList), (("x@y.z").toList))]
    (("the body").toList) (by decide) (by decide) (by decide)

lemma status_key_mem (fm : List (List Char × List Char))
    (hst : pyLower (dictGet fm (("status").toList)) = ("pending").toList) :
    ("status").toList ∈ fm.map Prod.fst := by
  by_contra hnm
  rw [dictGet_not_mem fm _ hnm] at hst
  exact absurd hst (by decide)

/-- **C4** (counterexample to the claim as stated): a pending record whose
frontmatter contains a carriage-return line break (`status: pending\r---x: y`)
is successfully transitioned, but the rewritten file in `Done` — whose
`---x` line now sits on its own `\n`-separated line — re-parses with its
frontmatter cut short, so the `status`/`processed_at` fields are not
recoverable from the relocated record. -/
theorem mover_done_record_cex :
    ((process_file (("2025-01-01 00:00:00").toList) true true
        ⟨some (("---\na: b\r---x: y\nstatus: pending\n---\nbody").toList), none⟩).2 = true) ∧
    ((process_file (("2025-01-01 00:00:00").toList) true true
        ⟨some (("---\na: b\r---x: y\nstatus: pending\n---\nbody").toList), none⟩).1.done.isSome
      = true) ∧
    ((process_file (("2025-01-01 00:00:00").toList) true true
        ⟨some (("---\na: b\r---x: y\nstatus: pending\n---\nbody").toList), none⟩).1.done.map
          statusOf ≠ some (some (("processed").toList))) := by
  refine ⟨by decide, by decide, by decide⟩

/-- **C4** (amended): for every record on which the Task Mover completes a
successful transition and whose parsed frontmatter has no key after the
first starting with `---` (in particular every record free of exotic line
breaks), with a well-formed timestamp: afterwards the record is gone from
its original path, present at the destination, and its parsed `status`
field equals `processed` while `processed_at` equals the (non-empty)
timestamp. -/
theorem mover_done_record_processed (ts : List Char) (w m : Bool) (s s' : TaskState)
    (hrun : process_file ts w m s = (s', true))
    (hts1 : pyStrip ts = ts) (hts2 : ∀ c ∈ ts, isLineBreak c = false) (hts3 : ts ≠ [])
    (htail : ∀ content fm body, s.needsAction = some content →
       parse_frontmatter content = (some fm, body) →
       ∀ p ∈ fm.tail, ("---").toList.isPrefixOf p.1 = false) :
    s'.needsAction = none ∧
    ∃ c fm' b', s'.done = some c ∧ parse_frontmatter c = (some fm', b') ∧
      dictGet fm' (("status").toList) = ("processed").toList ∧
      dictGet fm' (("processed_at").toList) = ts ∧ ts ≠ [] := by
  cases hna : s.needsAction with
  | none =>
    rw [process_file_no_file ts w m s hna] at hrun
    simp at hrun
  | some content =>
    cases hp : parse_frontmatter content with
    | mk o b =>
      cases o with
      | none =>
        rw [process_file_malformed ts w m s content b hna hp] at hrun
        simp at hrun
      | some fm =>
        rw [process_file_parsed ts w m s content fm b hna hp] at hrun
        by_cases hst : pyLower (dictGet fm (("status").toList)) = ("pending").toList
        · rw [if_neg (fun hcon => hcon hst)] at hrun
          cases w with
          | false => simp at hrun
          | true =>
            cases m with
            | false => simp at hrun
            | true =>
              simp only [Bool.not_true, Bool.false_eq_true, if_false] at hrun
              injection hrun with h1 _
              subst h1
              obtain ⟨hwf, hnd⟩ := parse_frontmatter_wf content fm b hp
              obtain ⟨hparse, hget1, hget2⟩ := moverUpdated_parse ts fm b hwf hnd
                (htail content fm b hna hp) hts1 hts2 (status_key_mem fm hst)
              exact ⟨rfl, moverUpdatedContent ts fm b, _, _, rfl, hparse, hget1, hget2, hts3⟩
        · rw [if_pos hst] at hrun
          simp at hrun

set_option maxRecDepth 8192 in
theorem mover_done_record_processed_witness :
    ((process_file (("2025-01-01 00:00:00").toList) true true
        ⟨some (("---\nstatus: pending\n---\nb").toList), none⟩).1.needsAction = none) :=
  (mover_done_record_processed (("2025-01-01 00:00:00").toList) true true
    ⟨some (("---\nstatus: pending\n---\nb").toList), none⟩
    (process_file (("2025-01-01 00:00:00").toList) true true
      ⟨some (("---\nstatus: pending\n---\nb").toList), none⟩).1
    (by decide) (by decide) (by decide) (by decide)
    (fun content fm body hna hp p hpt => by
      injection hna with h1
      subst h1
      rw [show parse_frontmatter (("---\nstatus: pending\n---\nb").toList) =
        (some [((("status").toList), (("pending").toList))], ("b").toList) from by decide] at hp
      injection hp with h2 h3
      have h4 := Option.some.inj h2
      subst h4
      cases hpt)).1

/-- **C9** (counterexample to the claim as stated): when the relocation
step fails after the in-place rewrite, the record stays in `Needs_Action`
with `status = processed`, violating the location/status invariant. -/
theorem mover_loc_status_cex :
    locStatusInv ⟨some (("---\nstatus: pending\n---\nbody").toList), none⟩ = true ∧
    locStatusInv (process_file (("2025-01-01 00:00:00").toList) true false
      ⟨some (("---\nstatus: pending\n---\nbody").toList), none⟩).1 = false := by
  refine ⟨by decide, by decide⟩

/-- **C9** (amended): the Task Mover preserves the location/status
invariant whenever the relocation step succeeds (for records whose parsed
frontmatter has no key after the first starting with `---`); when the
relocation fails after the in-place rewrite, the record remains in
`Needs_Action` with `status = processed` and the invariant is broken. -/
theorem mover_preserves_loc_status (ts : List Char) (w : Bool) (s : TaskState)
    (hts1 : pyStrip ts = ts) (hts2 : ∀ c ∈ ts, isLineBreak c = false)
    (htail : ∀ content fm body, s.needsAction = some content →
       parse_frontmatter content = (some fm, body) →
       ∀ p ∈ fm.tail, ("---").toList.isPrefixOf p.1 = false)
    (hinv : locStatusInv s = true) :
    (locStatusInv (process_file ts w true s).1 = true) ∧
    (∀ content fm body, s.needsAction = some content →
       parse_frontmatter content = (some fm, body) →
       pyLower (dictGet fm (("status").toList)) = ("pending").toList →
       (process_file ts true false s).1.needsAction
           = some (moverUpdatedContent ts fm body) ∧
       statusOf (moverUpdatedContent ts fm body) = some (("processed").toList) ∧
       locStatusInv (process_file ts true false s).1 = false) := by
  constructor
  · cases hna : s.needsAction with
    | none =>
      rw [process_file_no_file ts w true s hna]
      exact hinv
    | some content =>
      cases hp : parse_frontmatter content with
      | mk o b =>
        cases o with
        | none =>
          rw [process_file_malformed ts w true s content b hna hp]
          exact hinv
        | some fm =>
          rw [process_file_parsed ts w true s content fm b hna hp]
          by_cases hst : pyLower (dictGet fm (("status").toList)) = ("pending").toList
          · rw [if_neg (fun hcon => hcon hst)]
            cases w with
            | false => exact hinv
            | true =>
              obtain ⟨hwf, hnd⟩ := parse_frontmatter_wf content fm b hp
              obtain ⟨hparse, hget1, _⟩ := moverUpdated_parse ts fm b hwf hnd
                (htail content fm b hna hp) hts1 hts2 (status_key_mem fm hst)
              have hstatus : statusOf (moverUpdatedContent ts fm b) =
                  some (("processed").toList) := by
                unfold statusOf
                rw [hparse]
                dsimp only
                rw [hget1]
                decide
              show locStatusInv ⟨none, some (moverUpdatedContent ts fm b)⟩ = true
              unfold locStatusInv
              dsimp only
              rw [hstatus]
              decide
          · rw [if_pos hst]
            exact hinv
  · intro content fm body hna hp hst
    have heq := process_file_parsed ts true false s content fm body hna hp
    rw [if_neg (fun hcon => hcon hst)] at heq
    simp only [Bool.not_true, Bool.not_false, Bool.false_eq_true, eq_self_iff_true,
      if_false, if_true] at heq
    obtain ⟨hwf, hnd⟩ := parse_frontmatter_wf content fm body hp
    obtain ⟨hparse, hget1, _⟩ := moverUpdated_parse ts fm body hwf hnd
      (htail content fm body hna hp) hts1 hts2 (status_key_mem fm hst)
    have hstatus : statusOf (moverUpdatedContent ts fm body) =
        some (("processed").toList) := by
      unfold statusOf
      rw [hparse]
      dsimp only
      rw [hget1]
      decide
    refine ⟨?_, hstatus, ?_⟩
    · rw [heq]
    · rw [heq]
      unfold locStatusInv
      dsimp only
      rw [hstatus]
      rw [show ((some (("processed").toList) == some (("pending").toList)) : Bool) = false
        from by decide]
      rw [Bool.false_and]

set_option maxRecDepth 8192 in
theorem mover_preserves_loc_status_witness :
    locStatusInv (process_file (("2025-01-01 00:00:00").toList) true true
      ⟨some (("---\nstatus: pending\n---\nb").toList), none⟩).1 = true :=
  (mover_preserves_loc_status (("2025-01-01 00:00:00").toList) true
    ⟨some (("---\nstatus: pending\n---\nb").toList), none⟩
    (by decide) (by decide)
    (fun content fm body hna hp p hpt => by
      injection hna with h1
      subst h1
      rw [show parse_frontmatter (("---\nstatus: pending\n---\nb").toList) =
        (some [((("status").toList), (("pending").toList))], ("b").toList) from by decide] at hp
      injection hp with h2 h3
      have h4 := Option.some.inj h2
      subst h4
      cases hpt)
    (by decide)).1

/-- **C7** (counterexample to the claim as stated): the request-approval
operation called with `action_type = "scoped"` does not create a pending
file — it returns the closed-enum error string, leaves `Pending_Approval`
empty and appends no dashboard entry. -/
theorem request_approval_scoped_cex :
    create_approval_request [] (("scoped").toList) (("alice").toList) (("details").toList)
      (("2025-01-01 12:00:00").toList) =
      ⟨("ERROR: action_type must be 'DM' or 'POST'.").toList, [], []⟩ := by
  decide

set_option maxRecDepth 8192 in
/-- **C7** (amended): calling the request-approval operation with the
implementation's scoped action type `"DM"` and subject `"alice"` creates
exactly one pending file named `APPROVAL_INSTAGRAM_DM_alice.md` whose
`status` field is `pending`; once that filename sits in `Approved` with a
body containing `status: approved`, a subsequent check-approval for
`("DM", "alice")` reports `APPROVED`. -/
theorem request_approval_dm_alice (c : List Char)
    (hc : containsSub (("status: approved").toList) (pyLower c) = true) :
    ((create_approval_request [] (("DM").toList) (("alice").toList)
        (("details").toList) (("2025-01-01 12:00:00").toList)).pendingDir.map Prod.fst =
      [("APPROVAL_INSTAGRAM_DM_alice.md").toList]) ∧
    ((create_approval_request [] (("DM").toList) (("alice").toList)
        (("details").toList) (("2025-01-01 12:00:00").toList)).pendingDir.length = 1) ∧
    ((create_approval_request [] (("DM").toList) (("alice").toList)
        (("details").toList) (("2025-01-01 12:00:00").toList)).pendingDir.map
          (fun p => statusOf p.2) = [some (("pending").toList)]) ∧
    ("APPROVED").toList.isPrefixOf
      (check_approval_status (some [((("APPROVAL_INSTAGRAM_DM_alice.md").toList), c)])
        (("DM").toList) (("alice").toList)) = true := by
  have hfind : find_approval (some [((("APPROVAL_INSTAGRAM_DM_alice.md").toList), c)])
      (pyUpper (("DM").toList)) (("alice").toList) =
      some ((("APPROVAL_INSTAGRAM_DM_alice.md").toList), c) := by
    unfold find_approval
    dsimp only
    rw [List.filter_cons, List.filter_nil]
    dsimp only
    rw [if_pos (show (".md").toList.isSuffixOf
      (("APPROVAL_INSTAGRAM_DM_alice.md").toList) = true from by decide)]
    rw [approvalScan]
    dsimp only
    rw [show (!(approvalNamePref (pyUpper (("DM").toList))).isPrefixOf
      (pyUpper (("APPROVAL_INSTAGRAM_DM_alice.md").toList))) = false from by decide]
    rw [if_neg (by decide : ¬ (false = true))]
    rw [show (!(("alice").toList).isEmpty &&
      !containsSub (pyUpper (pySlug (("alice").toList)))
        (pyUpper (("APPROVAL_INSTAGRAM_DM_alice.md").toList)) &&
      (pyUpper (("APPROVAL_INSTAGRAM_DM_alice.md").toList) !=
        approvalNamePref (pyUpper (("DM").toList)) ++ (".MD").toList)) = false from by decide]
    rw [if_neg (by decide : ¬ (false = true))]
    rw [if_pos hc]
  refine ⟨by decide, by decide, by decide, ?_⟩
  unfold check_approval_status
  rw [hfind]
  simp only [List.append_assoc]
  refine isPrefixOf_append_head _ ?_
  decide

theorem request_approval_dm_alice_witness :
    ("APPROVED").toList.isPrefixOf
      (check_approval_status
        (some [((("APPROVAL_INSTAGRAM_DM_alice.md").toList), ("status: approved").toList)])
        (("DM").toList) (("alice").toList)) = true :=
  (request_approval_dm_alice (("status: approved").toList) (by decide)).2.2.2
